import Mathlib

/-!
Verification of the stackoverflowforteams-to-githubdiscussions migration tool.

This file gives a shallow embedding, in Lean, of the parts of the Python
source that the specification claims talk about:

* `rewrite_image_urls` (src/main.py, lines 55-63): a regex based rewrite of
  image URLs.  The regex
  `\(https://stackoverflowteams\.com/c/[^/]+/images/[^/]+/([a-f0-9-]+)\.png\)`
  is embedded as a deterministic left-to-right scanner (`matchAt`); no
  backtracking is needed because each greedy character class excludes the
  first character of the literal that follows it, so the maximal run is the
  only candidate the regex engine can accept.
* `wait_if_rate_limited` (src/github_discussions_client.py, lines 42-57):
  modelled as a pure function from the transport rate state and the current
  time to the optional sleep duration it performs.
* `RateLimitedTransport.execute` (lines 12-31): modelled as a pure function
  from the pre-state, the outcome of the wrapped GraphQL call and the headers
  of the extra HTTP POST to (number of outbound calls, post-state, result).
* `execute_query` (lines 63-84): the retry loop, modelled over an arbitrary
  sequence of per-attempt call outcomes, producing a trace of calls and
  sleeps together with the final result.
* `create_comment` (lines 150-204): modelled over the outcomes of its one or
  two `execute_query` invocations, producing the list of issued calls.
* the driver loop of `main` (src/main.py, lines 96-141): modelled as a fold
  over the post list, producing the log/remote-call event trace and either a
  final state or the Python exception that aborts the run.

Machine integers do not overflow in any of this code, so Nat and Int are
used directly.  Fallible code returns Except.
-/

/-! ## Image URL rewriting (src/main.py, rewrite_image_urls) -/

/-- Character class `[a-f0-9-]` of the regex. -/
def isHexDash (c : Char) : Bool :=
  ('a' ≤ c && c ≤ 'f') || ('0' ≤ c && c ≤ '9') || c == '-'

/-- Character class `[^/]` of the regex. -/
def notSlash (c : Char) : Bool := c != '/'

/-- Literal head of the regex: `(https://stackoverflowteams\.com/c/`. -/
def LIT1 : List Char := "(https://stackoverflowteams.com/c/".toList

/-- Literal `/images/` of the regex. -/
def LIT2 : List Char := "/images/".toList

/-- Literal tail `\.png\)` of the regex. -/
def LIT4 : List Char := ".png)".toList

/-- Match a literal: returns the remainder when `p` is an exact leading
segment of `l`. -/
def stripPrefixL : List Char → List Char → Option (List Char)
  | [], l => some l
  | _ :: _, [] => none
  | p :: ps, c :: cs => if c = p then stripPrefixL ps cs else none

/-- Greedy nonempty character-class run (`X+` for a class `X`): the maximal
run of characters satisfying `f`, required to be nonempty, plus the
remainder. -/
def takeClass1 (f : Char → Bool) (l : List Char) : Option (List Char × List Char) :=
  let t := l.takeWhile f
  if t.isEmpty then none else some (t, l.dropWhile f)

/-- Attempt to match the whole regex at the head of `l`.  On success returns
the capture group (the `[a-f0-9-]+` run) and the remainder after the match.
This is the regex
`\(https://stackoverflowteams\.com/c/[^/]+/images/[^/]+/([a-f0-9-]+)\.png\)`
compiled to a scanner; greediness is exact because each class excludes the
character starting the following literal. -/
def matchAt (l : List Char) : Option (List Char × List Char) :=
  match stripPrefixL LIT1 l with
  | none => none
  | some l1 =>
    match takeClass1 notSlash l1 with
    | none => none
    | some (_, l2) =>
      match stripPrefixL LIT2 l2 with
      | none => none
      | some l3 =>
        match takeClass1 notSlash l3 with
        | none => none
        | some (_, l4) =>
          match stripPrefixL ['/'] l4 with
          | none => none
          | some l5 =>
            match takeClass1 isHexDash l5 with
            | none => none
            | some (z, l6) =>
              match stripPrefixL LIT4 l6 with
              | none => none
              | some l7 => some (z, l7)

/-- Replacement text produced by the `replace` callback in the source:
the captured uuid with hyphens removed, spliced into
`(../blob/main/images/{uuid}.png?raw=true)`. -/
def replacementFor (z : List Char) : List Char :=
  "(../blob/main/images/".toList ++ z.filter (fun c => c ≠ '-') ++ ".png?raw=true)".toList

/-- Fuelled scanner for `re.sub`: at each position try the pattern; on a match
emit the replacement and continue after the match, otherwise copy one
character.  The fuel argument only serves structural recursion; `fuel = l.length`
is always sufficient because a match consumes at least one character
(`rewriteGoF_fuel` below proves fuel insensitivity). -/
def rewriteGoF : Nat → List Char → List Char
  | _, [] => []
  | 0, l => l
  | fuel + 1, c :: cs =>
    match matchAt (c :: cs) with
    | some (z, rest) => replacementFor z ++ rewriteGoF fuel rest
    | none => c :: rewriteGoF fuel cs

/-- The `re.sub` scan over a character list. -/
def rewriteGo (l : List Char) : List Char := rewriteGoF l.length l

/-- Model of `rewrite_image_urls` (src/main.py lines 55-63). -/
def rewrite_image_urls (s : String) : String := String.mk (rewriteGo s.data)

/-- Decidable equality for `Except`, used to evaluate the models on concrete
inputs. -/
instance {ε α : Type} [DecidableEq ε] [DecidableEq α] : DecidableEq (Except ε α) :=
  fun x y =>
    match x, y with
    | .ok a, .ok b =>
      if h : a = b then .isTrue (by rw [h]) else .isFalse (fun he => h (Except.ok.inj he))
    | .error a, .error b =>
      if h : a = b then .isTrue (by rw [h]) else .isFalse (fun he => h (Except.error.inj he))
    | .ok _, .error _ => .isFalse (fun he => Except.noConfusion he)
    | .error _, .ok _ => .isFalse (fun he => Except.noConfusion he)

/-! ## Rate state and wait_if_rate_limited
(src/github_discussions_client.py lines 42-57) -/

/-- The two rate-tracking fields of `RateLimitedTransport`.  `none` models the
Python value `None` (initial state, no headers seen yet); `some (-1)` is the
sentinel stored when a header was absent. -/
structure TransportState where
  rate_limit_remaining : Option Int
  rate_limit_reset : Option Int
  deriving DecidableEq, Repr

/-- Model of `_wait_if_rate_limited`: the optional sleep duration it performs,
as a function of the transport rate state and the current time.  Mirrors the
source line by line: return early (no sleep) when either field is `None`;
return early when either field is the `-1` sentinel; sleep
`max (reset - now) 1` when `remaining == 0`; otherwise proceed without
sleeping. -/
def wait_if_rate_limited (st : TransportState) (now : Int) : Option Int :=
  match st.rate_limit_remaining, st.rate_limit_reset with
  | none, _ => none
  | some _, none => none
  | some rem, some rst =>
    if rem = -1 ∨ rst = -1 then none
    else if rem = 0 then some (max (rst - now) 1)
    else none

/-! ## RateLimitedTransport.execute (lines 12-31) -/

/-- Headers of the extra HTTP POST the transport makes after a successful
GraphQL call; each field is the raw string value of the corresponding
`x-ratelimit-*` header when present. -/
structure TransportHeaders where
  remaining : Option String
  reset : Option String
  deriving DecidableEq, Repr

/-- Decimal digit run to a natural number; fails on a non-digit or on the
empty run. -/
def decDigits : Nat → List Char → Option Nat
  | _, [] => none
  | acc, [c] =>
    if '0' ≤ c && c ≤ '9' then some (acc * 10 + (c.toNat - '0'.toNat)) else none
  | acc, c :: cs =>
    if '0' ≤ c && c ≤ '9' then decDigits (acc * 10 + (c.toNat - '0'.toNat)) cs else none

/-- Parse of a plain decimal integer string, with optional leading minus sign.
This stands in for Python `int()`; both agree on the plain decimal strings
(and the garbage strings) exercised here — the Python extras such as
surrounding whitespace or underscores never appear in rate limit headers. -/
def pyInt (s : String) : Option Int :=
  match s.data with
  | '-' :: ds => (decDigits 0 ds).map (fun n => -(n : Int))
  | ds => (decDigits 0 ds).map (fun n => (n : Int))

/-- Model of `int(headers.get(name, -1))`: absent header yields the `-1`
sentinel; a present header is parsed, and an unparsable value raises
`ValueError` (modelled as the error case). -/
def pyIntHeader : Option String → Except String Int
  | none => .ok (-1)
  | some s =>
    match pyInt s with
    | some n => .ok n
    | none => .error ("ValueError: invalid literal for int() with base 10: " ++ s)

/-- Model of `RateLimitedTransport.execute`.  Arguments: the pre-state, the
outcome of `super().execute(document, ...)` (the wrapped GraphQL call), and
the headers of the follow-up `session.post` the method then performs to read
rate limit headers.  Returns (number of outbound HTTP calls issued,
post-state, result).  Mirrors the source: a failing GraphQL call is logged and
re-raised after one call with the state untouched; on success a second POST of
the same document is made, then `rate_limit_remaining` is assigned, then
`rate_limit_reset` is assigned, so a parse error in the first assignment
leaves both fields untouched and a parse error in the second leaves only
`rate_limit_remaining` updated, and the error propagates. -/
def transport_execute (st : TransportState) (callOutcome : Except String Nat)
    (hdrs : TransportHeaders) : Nat × TransportState × Except String Nat :=
  match callOutcome with
  | .error e => (1, st, .error e)
  | .ok v =>
    match pyIntHeader hdrs.remaining with
    | .error e => (2, st, .error e)
    | .ok rem =>
      let st1 : TransportState := { st with rate_limit_remaining := some rem }
      match pyIntHeader hdrs.reset with
      | .error e => (2, st1, .error e)
      | .ok rst => (2, { st1 with rate_limit_reset := some rst }, .ok v)

/-! ## execute_query retry loop (lines 63-84) -/

/-- Outcome of one `self.client.execute` attempt: a decoded value, or the
string form of the raised exception. -/
inductive CallOutcome where
  | success (v : Nat)
  | failure (msg : String)
  deriving DecidableEq, Repr

/-- Terminal outcome of `execute_query`: either the re-raised exception of an
attempt (`raise` at line 81), or the dead-code
`TransportQueryError("Failed after maximum retries due to rate limiting")`
at line 84. -/
inductive QueryError where
  | raised (msg : String)
  | exhaustedRetries
  deriving DecidableEq, Repr

/-- One observable event of the retry loop: a `client.execute` attempt, a
sleep performed by `_wait_if_rate_limited`, or an exponential-backoff sleep
(`time.sleep(5 ** attempt)`). -/
inductive ExecEvent where
  | call
  | waitSleep (d : Int)
  | backoff (d : Nat)
  deriving DecidableEq, Repr

/-- The `max_retries = 4` constant of `execute_query`. -/
def max_retries : Nat := 4

/-- Substring test over character lists (the Python `in` operator on str):
true when `needle` occurs contiguously somewhere in the second list. -/
def listContains (needle : List Char) : List Char → Bool
  | [] => needle.isEmpty
  | c :: cs => needle.isPrefixOf (c :: cs) || listContains needle cs

/-- Throttle-signature test of line 72: `"was submitted too quickly" in str(e)`. -/
def isThrottle (msg : String) : Bool :=
  listContains "was submitted too quickly".toList msg.toList

/-- Events emitted by one `_wait_if_rate_limited()` invocation. -/
def waitEvs (st : TransportState) (now : Int) : List ExecEvent :=
  match wait_if_rate_limited st now with
  | some d => [ExecEvent.waitSleep d]
  | none => []

/-- Body of the `while attempt < max_retries` loop of `execute_query`.

The transport rate state is constant across the loop: the transport only
updates it after a successful GraphQL call, and a success returns from
`execute_query` at once, so every `_wait_if_rate_limited` check inside one
`execute_query` invocation reads the same state `rs`.  `nows i` is the clock
at the i-th check, `f i` is the outcome of the i-th `client.execute` attempt.
The fuel argument equals `max_retries - attempt` throughout (the caller
starts it at `max_retries` with `attempt = 0`); fuel 0 is exactly the
fall-through exit of the while loop, i.e. the line 84
`raise TransportQueryError(...)`. -/
def executeQueryGo (rs : TransportState) (nows : Nat → Int) (f : Nat → CallOutcome) :
    Nat → Nat → List ExecEvent × Except QueryError Nat
  | 0, _ => ([], .error .exhaustedRetries)
  | fuel + 1, attempt =>
    let w := waitEvs rs (nows attempt)
    match f attempt with
    | .success v => (w ++ [ExecEvent.call], .ok v)
    | .failure msg =>
      if isThrottle msg then
        if attempt + 1 < max_retries then
          let r := executeQueryGo rs nows f fuel (attempt + 1)
          (w ++ ExecEvent.call :: ExecEvent.backoff (5 ^ (attempt + 1)) :: r.1, r.2)
        else (w ++ [ExecEvent.call], .error (.raised msg))
      else (w ++ [ExecEvent.call], .error (.raised msg))

/-- Model of `GitHubDiscussionsClient.execute_query` (the second definition,
lines 63-84, which shadows the first). -/
def execute_query (rs : TransportState) (nows : Nat → Int) (f : Nat → CallOutcome) :
    List ExecEvent × Except QueryError Nat :=
  executeQueryGo rs nows f max_retries 0

/-- Number of `client.execute` attempts in a trace. -/
def numCalls (evs : List ExecEvent) : Nat :=
  evs.countP (fun e => match e with | ExecEvent.call => true | _ => false)

/-- All sleep durations in a trace, in order (both wait sleeps and backoff
sleeps). -/
def allSleeps (evs : List ExecEvent) : List Int :=
  evs.filterMap (fun e =>
    match e with
    | ExecEvent.call => none
    | ExecEvent.waitSleep d => some d
    | ExecEvent.backoff d => some (d : Int))

/-- The backoff sleep durations in a trace, in order. -/
def backoffSleeps (evs : List ExecEvent) : List Nat :=
  evs.filterMap (fun e =>
    match e with
    | ExecEvent.backoff d => some d
    | _ => none)

/-! ## create_comment (lines 150-204) -/

/-- One remote mutation issued by `create_comment` (each is one
`execute_query` invocation). -/
inductive CommentCall where
  | addComment (discussionId : Nat) (body : String)
  | markAnswer (commentId : String)
  deriving DecidableEq, Repr

/-- Python truthiness of `result.get('addDiscussionComment', {}).get('comment', {}).get('id')`:
a missing id is `None` (falsy) and an empty string is falsy. -/
def truthyId : Option String → Bool
  | none => false
  | some s => !s.isEmpty

/-- Model of `GitHubDiscussionsClient.create_comment`.  `firstOutcome` is the
result of the `addDiscussionComment` `execute_query` call (the returned
comment id, possibly absent, or the raised exception); `secondOutcome` that of
the `markDiscussionCommentAsAnswer` call if made.  Returns the list of remote
calls issued, in order, and the overall result: the source creates the
comment first, and only when `is_answer` holds and a (truthy) comment id came
back does it issue the second, separate mark-as-answer call. -/
def create_comment (discussion_id : Nat) (body : String) (is_answer : Bool)
    (firstOutcome : Except String (Option String)) (secondOutcome : Except String Unit) :
    List CommentCall × Except String (Option String) :=
  match firstOutcome with
  | .error e => ([CommentCall.addComment discussion_id body], .error e)
  | .ok cid =>
    if is_answer && truthyId cid then
      match secondOutcome with
      | .error e =>
        ([CommentCall.addComment discussion_id body, CommentCall.markAnswer (cid.getD "")], .error e)
      | .ok _ =>
        ([CommentCall.addComment discussion_id body, CommentCall.markAnswer (cid.getD "")], .ok cid)
    else ([CommentCall.addComment discussion_id body], .ok cid)

/-! ## Driver loop of main (src/main.py lines 96-141) -/

/-- The fields of `StackOverflowPost` the driver loop reads.  Optional fields
default to `None` in the dataclass; `ownerUserId` defaults to 0. -/
structure Post where
  id : Int
  postType : String
  bodyMarkdown : String
  ownerUserId : Int
  acceptedAnswerId : Option Int
  title : Option String
  parentId : Option Int
  deriving DecidableEq, Repr

/-- The fields of `UserProfile` the driver loop reads. -/
structure UserProfile where
  id : Int
  displayName : String
  deriving DecidableEq, Repr

/-- Model of `find_user_by_id` (src/main.py lines 48-49). -/
def find_user_by_id (users : List UserProfile) (user_id : Int) : Option UserProfile :=
  users.find? (fun u => u.id == user_id)

/-- The source constant `process_questions_and_answers = False`
(src/main.py line 101). -/
def process_questions_and_answers : Bool := false

/-- The source constant `process_articles = True` (src/main.py line 102). -/
def process_articles : Bool := true

/-- One observable event of the driver loop: a printed line or a client call.
For discussion creation we record the category and the title/body sent; for
comments the parent discussion id, body, and the `is_answer` flag. -/
inductive DriverEvent where
  | log (msg : String)
  | createDiscussion (repositoryId : Nat) (categoryId : Nat) (title : Option String) (body : String)
  | createComment (discussionId : Nat) (body : String) (isAnswer : Bool)
  deriving DecidableEq, Repr

/-- The Python exception that can escape the loop body: subscripting `None`
(`parent_discussion['createDiscussion']` when the correlation map lookup
returned `None`). -/
inductive PyError where
  | typeError (msg : String)
  deriving DecidableEq, Repr

/-- Environment of one run: data loaded before the loop plus how the remote
assigns ids.  `newDiscussionId n` is the id of the n-th discussion the remote
creates (read back by the driver from
`result['createDiscussion']['discussion']['id']`).  The two processing flags
are parameters so that both the shipped constants and the enabled behaviour
can be stated; the shipped run is the instance at
`process_questions_and_answers` / `process_articles`. -/
structure DriverEnv where
  users : List UserProfile
  repoId : Nat
  qaCategoryId : Nat
  articlesCategoryId : Nat
  pqa : Bool
  part : Bool
  newDiscussionId : Nat → Nat

/-- Mutable state of the loop: the correlation map `discussion_tokens`
(source question id to created discussion id, most recent binding first), the
`answer_ids` map (question id to accepted answer id), and how many
discussions have been created so far. -/
structure DriverState where
  tokens : List (Int × Nat)
  answer_ids : List (Int × Int)
  nCreated : Nat
  deriving DecidableEq, Repr

/-- Initial driver state: both dicts empty. -/
def initState : DriverState := { tokens := [], answer_ids := [], nCreated := 0 }

/-- Python str() of an optional string, as interpolated by an f-string:
the string itself when present, the text `None` otherwise. -/
def pyStrOfTitle : Option String → String
  | some t => t
  | none => "None"

/-- Decimal digits of a natural number, most significant first, prepended to
`acc`; fuel-driven structural recursion (`fuel = n + 1` always suffices). -/
def natDigitsF : Nat → Nat → List Char → List Char
  | 0, _, acc => acc
  | fuel + 1, n, acc =>
    if n < 10 then Char.ofNat (48 + n) :: acc
    else natDigitsF fuel (n / 10) (Char.ofNat (48 + n % 10) :: acc)

/-- Python str() of an integer, as interpolated by an f-string. -/
def pyStrOfInt : Int → String
  | Int.ofNat n => String.mk (natDigitsF (n + 1) n [])
  | Int.negSucc n => String.mk ('-' :: natDigitsF (n + 2) (n + 1) [])

/-- The attribution string: `"Written by {displayName}\n"` when the owner is
found, otherwise empty. -/
def attributionFor (users : List UserProfile) (ownerUserId : Int) : String :=
  match find_user_by_id users ownerUserId with
  | some u => "Written by " ++ u.displayName ++ "\n"
  | none => ""

/-- Body of the `for post in posts` loop (src/main.py lines 104-140): events
emitted for one post and either the updated state or the escaping exception. -/
def stepPost (env : DriverEnv) (st : DriverState) (post : Post) :
    List DriverEvent × Except PyError DriverState :=
  if env.pqa && (post.postType == "question") then
    let body := attributionFor env.users post.ownerUserId ++ rewrite_image_urls post.bodyMarkdown
    let did := env.newDiscussionId st.nCreated
    let st1 : DriverState :=
      { st with tokens := (post.id, did) :: st.tokens, nCreated := st.nCreated + 1 }
    let st2 : DriverState :=
      match post.acceptedAnswerId with
      | some aid => if aid > 0 then { st1 with answer_ids := (post.id, aid) :: st1.answer_ids } else st1
      | none => st1
    ([DriverEvent.log ("\nProcessing question: " ++ pyStrOfTitle post.title),
      DriverEvent.createDiscussion env.repoId env.qaCategoryId post.title body], .ok st2)
  else if env.pqa && (post.postType == "answer") then
    match post.parentId.bind (fun pid => st.tokens.lookup pid) with
    | none =>
      ([DriverEvent.log ("Error: Answer " ++ pyStrOfInt post.id ++ " has no parent discussion")],
       .error (PyError.typeError "TypeError: NoneType object is not subscriptable"))
    | some did =>
      let isAns := (post.parentId.bind (fun pid => st.answer_ids.lookup pid)).getD (-1) == post.id
      ([DriverEvent.createComment did post.bodyMarkdown isAns], .ok st)
  else if env.part && (post.postType == "article") then
    let body := attributionFor env.users post.ownerUserId ++ rewrite_image_urls post.bodyMarkdown
    let st1 : DriverState := { st with nCreated := st.nCreated + 1 }
    ([DriverEvent.log ("Processing article: " ++ pyStrOfTitle post.title),
      DriverEvent.createDiscussion env.repoId env.articlesCategoryId post.title body], .ok st1)
  else ([], .ok st)

/-- The `for post in posts` loop: an exception escaping one iteration aborts
the whole loop (it propagates to the handler wrapping `main`, which prints the
trace and calls `sys.exit(1)`). -/
def process_posts (env : DriverEnv) (st : DriverState) :
    List Post → List DriverEvent × Except PyError DriverState
  | [] => ([], .ok st)
  | p :: ps =>
    match stepPost env st p with
    | (evs, .error e) => (evs, .error e)
    | (evs, .ok st1) =>
      let r := process_posts env st1 ps
      (evs ++ r.1, r.2)

/-- The remote calls in a driver trace (logs dropped), in order. -/
def remoteCalls (evs : List DriverEvent) : List DriverEvent :=
  evs.filter (fun e => match e with | DriverEvent.log _ => false | _ => true)


/-! ## Structural lemmas about the regex scanner -/

theorem stripPrefixL_eq_some : ∀ {p l r : List Char}, stripPrefixL p l = some r ↔ l = p ++ r := by
  intro p
  induction p with
  | nil =>
    intro l r
    simp [stripPrefixL]
  | cons a ps ih =>
    intro l r
    cases l with
    | nil => simp [stripPrefixL]
    | cons c cs =>
      by_cases h : c = a
      · subst h
        simp [stripPrefixL, ih]
      · simp [stripPrefixL, h]

theorem stripPrefixL_self_append (p t : List Char) : stripPrefixL p (p ++ t) = some t :=
  stripPrefixL_eq_some.mpr rfl

theorem head?_dropWhile_false (f : Char → Bool) :
    ∀ (l : List Char) (c : Char), (l.dropWhile f).head? = some c → f c = false := by
  intro l
  induction l with
  | nil => simp
  | cons a as ih =>
    intro c
    by_cases h : f a
    · simpa [List.dropWhile_cons, h] using ih c
    · simp only [List.dropWhile_cons, h]
      simp only [if_neg, Bool.false_eq_true, ite_false, List.head?_cons, Option.some.injEq]
      intro hc
      rw [← hc]
      exact Bool.eq_false_iff.mpr h

theorem takeClass1_sound {f : Char → Bool} {l z r : List Char}
    (h : takeClass1 f l = some (z, r)) :
    l = z ++ r ∧ z ≠ [] ∧ (∀ c ∈ z, f c = true) ∧ (∀ c, r.head? = some c → f c = false) := by
  rw [takeClass1] at h
  by_cases he : (l.takeWhile f).isEmpty
  · simp [he] at h
  · simp only [he, Bool.false_eq_true, ite_false, Option.some.injEq, Prod.mk.injEq] at h
    obtain ⟨hz, hr⟩ := h
    refine ⟨?_, ?_, ?_, ?_⟩
    · rw [← hz, ← hr, List.takeWhile_append_dropWhile]
    · rw [← hz]
      intro hn
      rw [hn] at he
      exact he rfl
    · intro c hc
      rw [← hz] at hc
      exact List.mem_takeWhile_imp hc
    · intro c hc
      rw [← hr] at hc
      exact head?_dropWhile_false f l c hc

theorem takeWhile_append_of (f : Char → Bool) :
    ∀ (z r : List Char), (∀ c ∈ z, f c = true) → (∀ c, r.head? = some c → f c = false) →
      (z ++ r).takeWhile f = z ∧ (z ++ r).dropWhile f = r := by
  intro z
  induction z with
  | nil =>
    intro r _ hr
    cases r with
    | nil => simp
    | cons c cs =>
      have hc : f c = false := hr c rfl
      simp [List.takeWhile_cons, List.dropWhile_cons, hc]
  | cons a as ih =>
    intro r hz hr
    have ha : f a = true := hz a (List.mem_cons_self a as)
    have := ih r (fun c hc => hz c (List.mem_cons_of_mem a hc)) hr
    simp [List.takeWhile_cons, List.dropWhile_cons, ha, this.1, this.2]

theorem takeClass1_complete {f : Char → Bool} {z r : List Char}
    (hne : z ≠ []) (hall : ∀ c ∈ z, f c = true) (hr : ∀ c, r.head? = some c → f c = false) :
    takeClass1 f (z ++ r) = some (z, r) := by
  obtain ⟨h1, h2⟩ := takeWhile_append_of f z r hall hr
  rw [takeClass1, h1, h2]
  cases z with
  | nil => exact absurd rfl hne
  | cons a as => rfl

/-- The shape constraints that make `LIT1 ++ x ++ LIT2 ++ y ++ '/' :: z ++ LIT4`
an occurrence of the regex: nonempty classes, `x` and `y` slash-free, `z`
drawn from `[a-f0-9-]`. -/
def GoodParts (x y z : List Char) : Prop :=
  x ≠ [] ∧ y ≠ [] ∧ z ≠ [] ∧
    (∀ c ∈ x, notSlash c = true) ∧ (∀ c ∈ y, notSlash c = true) ∧
    (∀ c ∈ z, isHexDash c = true)

/-- The full text consumed by one regex match with parts `x`, `y`, `z`. -/
def matchWord (x y z : List Char) : List Char :=
  LIT1 ++ x ++ LIT2 ++ y ++ '/' :: z ++ LIT4

theorem matchAt_complete {x y z : List Char} (h : GoodParts x y z) (t : List Char) :
    matchAt (matchWord x y z ++ t) = some (z, t) := by
  obtain ⟨hx, hy, hz, hxs, hys, hzs⟩ := h
  have h1 : stripPrefixL LIT1 (matchWord x y z ++ t)
      = some (x ++ (LIT2 ++ (y ++ ('/' :: (z ++ (LIT4 ++ t)))))) :=
    stripPrefixL_eq_some.mpr (by simp [matchWord])
  have h2 : takeClass1 notSlash (x ++ (LIT2 ++ (y ++ ('/' :: (z ++ (LIT4 ++ t))))))
      = some (x, LIT2 ++ (y ++ ('/' :: (z ++ (LIT4 ++ t))))) := by
    refine takeClass1_complete hx hxs ?_
    intro c hc
    have : c = '/' := by
      have : LIT2 ++ (y ++ ('/' :: (z ++ (LIT4 ++ t))))
          = '/' :: ("images/".toList ++ (y ++ ('/' :: (z ++ (LIT4 ++ t))))) := rfl
      rw [this] at hc
      exact (Option.some.inj hc).symm
    rw [this]
    rfl
  have h3 : stripPrefixL LIT2 (LIT2 ++ (y ++ ('/' :: (z ++ (LIT4 ++ t)))))
      = some (y ++ ('/' :: (z ++ (LIT4 ++ t)))) := stripPrefixL_self_append _ _
  have h4 : takeClass1 notSlash (y ++ ('/' :: (z ++ (LIT4 ++ t))))
      = some (y, '/' :: (z ++ (LIT4 ++ t))) := by
    refine takeClass1_complete hy hys ?_
    intro c hc
    rw [(Option.some.inj hc).symm]
    rfl
  have h5 : stripPrefixL ['/'] ('/' :: (z ++ (LIT4 ++ t))) = some (z ++ (LIT4 ++ t)) :=
    stripPrefixL_self_append ['/'] _
  have h6 : takeClass1 isHexDash (z ++ (LIT4 ++ t)) = some (z, LIT4 ++ t) := by
    refine takeClass1_complete hz hzs ?_
    intro c hc
    have : c = '.' := by
      have : LIT4 ++ t = '.' :: ("png)".toList ++ t) := rfl
      rw [this] at hc
      exact (Option.some.inj hc).symm
    rw [this]
    rfl
  have h7 : stripPrefixL LIT4 (LIT4 ++ t) = some t := stripPrefixL_self_append _ _
  simp only [matchAt, h1, h2, h3, h4, h5, h6, h7]

theorem matchAt_sound {l z r : List Char} (h : matchAt l = some (z, r)) :
    ∃ x y, GoodParts x y z ∧ l = matchWord x y z ++ r := by
  rw [matchAt] at h
  cases e1 : stripPrefixL LIT1 l with
  | none => simp [e1] at h
  | some l1 =>
  simp only [e1] at h
  cases e2 : takeClass1 notSlash l1 with
  | none => simp [e2] at h
  | some xl2 =>
  simp only [e2] at h
  obtain ⟨x, l2⟩ := xl2
  cases e3 : stripPrefixL LIT2 l2 with
  | none => simp [e3] at h
  | some l3 =>
  simp only [e3] at h
  cases e4 : takeClass1 notSlash l3 with
  | none => simp [e4] at h
  | some yl4 =>
  simp only [e4] at h
  obtain ⟨y, l4⟩ := yl4
  cases e5 : stripPrefixL ['/'] l4 with
  | none => simp [e5] at h
  | some l5 =>
  simp only [e5] at h
  cases e6 : takeClass1 isHexDash l5 with
  | none => simp [e6] at h
  | some zl6 =>
  simp only [e6] at h
  obtain ⟨z0, l6⟩ := zl6
  cases e7 : stripPrefixL LIT4 l6 with
  | none => simp [e7] at h
  | some l7 =>
  simp only [e7] at h
  simp only [Option.some.injEq, Prod.mk.injEq] at h
  obtain ⟨hz0, hl7⟩ := h
  subst hz0
  subst hl7
  obtain ⟨hx1, hx2, hx3, _⟩ := takeClass1_sound e2
  obtain ⟨hy1, hy2, hy3, _⟩ := takeClass1_sound e4
  obtain ⟨hz1, hz2, hz3, _⟩ := takeClass1_sound e6
  refine ⟨x, y, ⟨hx2, hy2, hz2, hx3, hy3, hz3⟩, ?_⟩
  rw [stripPrefixL_eq_some.mp e1, hx1, stripPrefixL_eq_some.mp e3, hy1,
    stripPrefixL_eq_some.mp e5, hz1, stripPrefixL_eq_some.mp e7]
  simp [matchWord]

theorem matchWord_length_pos (x y z : List Char) : 0 < (matchWord x y z).length := by
  rw [matchWord]
  simp only [List.append_assoc, List.length_append]
  have : 0 < LIT1.length := by decide
  omega

theorem matchAt_rest_length {l z r : List Char} (h : matchAt l = some (z, r)) :
    r.length < l.length := by
  obtain ⟨x, y, _, hl⟩ := matchAt_sound h
  rw [hl, List.length_append]
  have := matchWord_length_pos x y z
  omega

/-! ## Equation lemmas for the re.sub scan -/

theorem rewriteGoF_fuel : ∀ (f1 : Nat) (l : List Char) (f2 : Nat),
    l.length ≤ f1 → l.length ≤ f2 → rewriteGoF f1 l = rewriteGoF f2 l := by
  intro f1
  induction f1 with
  | zero =>
    intro l f2 h1 _
    have : l = [] := List.eq_nil_of_length_eq_zero (Nat.le_zero.mp h1)
    subst this
    cases f2 <;> rfl
  | succ f ih =>
    intro l f2 h1 h2
    cases l with
    | nil => cases f2 <;> rfl
    | cons c cs =>
      cases f2 with
      | zero => exact absurd h2 (by simp)
      | succ f2p =>
        simp only [rewriteGoF]
        cases hm : matchAt (c :: cs) with
        | none =>
          dsimp only
          have hlen : cs.length ≤ f := by
            simp only [List.length_cons] at h1
            omega
          have hlen2 : cs.length ≤ f2p := by
            simp only [List.length_cons] at h2
            omega
          rw [ih cs f2p hlen hlen2]
        | some p =>
          obtain ⟨z, rest⟩ := p
          dsimp only
          have hr := matchAt_rest_length hm
          simp only [List.length_cons] at hr h1 h2
          rw [ih rest f2p (by omega) (by omega)]

theorem rewriteGo_nil : rewriteGo [] = [] := rfl

theorem rewriteGo_cons_some {c : Char} {cs z rest : List Char}
    (hm : matchAt (c :: cs) = some (z, rest)) :
    rewriteGo (c :: cs) = replacementFor z ++ rewriteGo rest := by
  rw [rewriteGo, rewriteGo, List.length_cons, rewriteGoF, hm]
  dsimp only
  have hr := matchAt_rest_length hm
  simp only [List.length_cons] at hr
  rw [rewriteGoF_fuel cs.length rest rest.length (by omega) (le_refl _)]

theorem rewriteGo_cons_none {c : Char} {cs : List Char} (hm : matchAt (c :: cs) = none) :
    rewriteGo (c :: cs) = c :: rewriteGo cs := by
  rw [rewriteGo, rewriteGo, List.length_cons, rewriteGoF, hm]

/-! ## Quick failure of the scanner on characters that cannot start a match -/

theorem LIT1_cons : LIT1 = '(' :: 'h' :: "ttps://stackoverflowteams.com/c/".toList := rfl

theorem matchAt_ne_paren {c : Char} (l : List Char) (h : c ≠ '(') : matchAt (c :: l) = none := by
  have h1 : stripPrefixL LIT1 (c :: l) = none := by
    rw [LIT1_cons, stripPrefixL, if_neg h]
  rw [matchAt, h1]

theorem matchAt_paren_ne {b : Char} (l : List Char) (h : b ≠ 'h') :
    matchAt ('(' :: b :: l) = none := by
  have h1 : stripPrefixL LIT1 ('(' :: b :: l) = none := by
    rw [LIT1_cons, stripPrefixL, if_pos rfl, stripPrefixL, if_neg h]
  rw [matchAt, h1]

theorem matchAt_nil : matchAt [] = none := rfl

/-! ## No match can start inside replacement text -/

/-- The replacement minus its opening parenthesis. -/
def REPLTAIL (z : List Char) : List Char :=
  "../blob/main/images/".toList ++ z.filter (fun c => c ≠ '-') ++ ".png?raw=true)".toList

theorem replacementFor_eq (z : List Char) : replacementFor z = '(' :: REPLTAIL z := rfl

theorem isHexDash_ne_paren {c : Char} (h : isHexDash c = true) : c ≠ '(' := by
  intro he
  rw [he] at h
  exact absurd h (by decide)

theorem noParen_REPLTAIL {z : List Char} (hz : ∀ c ∈ z, isHexDash c = true) :
    ∀ c ∈ REPLTAIL z, c ≠ '(' := by
  intro c hc
  rw [REPLTAIL] at hc
  simp only [List.append_assoc, List.mem_append] at hc
  rcases hc with hc | hc | hc
  · have hall : ∀ x ∈ "../blob/main/images/".toList, x ≠ '(' := by decide
    exact hall c hc
  · exact isHexDash_ne_paren (hz c (List.mem_of_mem_filter hc))
  · have hall : ∀ x ∈ ".png?raw=true)".toList, x ≠ '(' := by decide
    exact hall c hc

/-- A nonempty suffix of a replacement can never begin a match, whatever
follows it: either it starts past the opening parenthesis with a character
that is not `(`, or it is the whole replacement, whose second character is a
dot where the pattern requires an h. -/
theorem matchAt_none_of_suffix_repl {z : List Char} (hz : ∀ c ∈ z, isHexDash c = true)
    {s : List Char} (hs : s <:+ replacementFor z) (hne : s ≠ []) (R : List Char) :
    matchAt (s ++ R) = none := by
  rw [replacementFor_eq] at hs
  rcases List.suffix_cons_iff.mp hs with he | ht
  · rw [he]
    have h2 : REPLTAIL z = '.' :: ("./blob/main/images/".toList
        ++ z.filter (fun c => c ≠ '-') ++ ".png?raw=true)".toList) := rfl
    rw [h2]
    simp only [List.cons_append]
    exact matchAt_paren_ne _ (by decide)
  · cases s with
    | nil => exact absurd rfl hne
    | cons c s1 =>
      have hc : c ∈ REPLTAIL z := ht.subset (List.mem_cons_self c s1)
      simp only [List.cons_append]
      exact matchAt_ne_paren _ (noParen_REPLTAIL hz c hc)

/-! ## Suffixes of appended lists -/

theorem suffix_append_split {t A B : List Char} (h : t <:+ A ++ B) :
    t <:+ B ∨ ∃ a, a <:+ A ∧ a ≠ [] ∧ t = a ++ B := by
  induction A with
  | nil => left; simpa using h
  | cons x xs ih =>
    rw [List.cons_append] at h
    rcases List.suffix_cons_iff.mp h with he | ht
    · right
      exact ⟨x :: xs, List.suffix_rfl, by simp, by simpa using he⟩
    · rcases ih ht with h1 | ⟨a, ha, hne2, he⟩
      · left; exact h1
      · right; exact ⟨a, ha.trans (List.suffix_cons x xs), hne2, he⟩

theorem suffix_append_singleton {t p : List Char} {d : Char} (h : t <:+ p ++ [d]) :
    t = [] ∨ ∃ s, s <:+ p ∧ t = s ++ [d] := by
  rcases suffix_append_split h with h1 | ⟨a, ha, _, he⟩
  · rcases List.suffix_cons_iff.mp h1 with he | ht
    · exact Or.inr ⟨[], List.nil_suffix, by simpa using he⟩
    · left
      simpa using List.eq_nil_of_suffix_nil ht
  · exact Or.inr ⟨a, ha, he⟩

theorem suffix_append_same {s p : List Char} (d : Char) (h : s <:+ p) :
    s ++ [d] <:+ p ++ [d] := by
  obtain ⟨w, hw⟩ := h
  exact ⟨w, by rw [← hw, List.append_assoc]⟩

/-! ## The interior of a match word never begins with the replacement prefix -/

theorem matchWord_getLast (x y z : List Char) : (matchWord x y z).getLast? = some ')' := by
  have he : matchWord x y z = (LIT1 ++ x ++ LIT2 ++ y ++ ('/' :: z)) ++ LIT4 := by
    simp [matchWord, List.append_assoc]
  rw [he, List.getLast?_append_of_ne_nil _ (by decide)]
  decide

theorem midX (d R w : List Char) (hd : ∀ c ∈ d, notSlash c = true) :
    d ++ (LIT2 ++ R) ≠ '(' :: '.' :: '.' :: '/' :: 'b' :: 'l' :: w := by
  have hL : LIT2 = '/' :: 'i' :: "mages/".toList := rfl
  intro heq
  cases d with
  | nil =>
    rw [List.nil_append, hL] at heq
    simp at heq
  | cons e1 d1 =>
    rw [List.cons_append] at heq
    injection heq with h1 heq
    cases d1 with
    | nil =>
      rw [List.nil_append, hL] at heq
      simp at heq
    | cons e2 d2 =>
      rw [List.cons_append] at heq
      injection heq with h2 heq
      cases d2 with
      | nil =>
        rw [List.nil_append, hL] at heq
        simp at heq
      | cons e3 d3 =>
        rw [List.cons_append] at heq
        injection heq with h3 heq
        cases d3 with
        | nil =>
          rw [List.nil_append, hL] at heq
          simp at heq
        | cons e4 d4 =>
          rw [List.cons_append] at heq
          injection heq with h4 heq
          have : notSlash e4 = true := hd e4 (by simp)
          rw [h4] at this
          exact absurd this (by decide)

theorem midY (d z w : List Char) (hd : ∀ c ∈ d, notSlash c = true)
    (hz : ∀ c ∈ z, isHexDash c = true) :
    d ++ ('/' :: (z ++ LIT4)) ≠ '(' :: '.' :: '.' :: '/' :: 'b' :: 'l' :: w := by
  have hL : LIT4 = '.' :: "png)".toList := rfl
  intro heq
  cases d with
  | nil =>
    rw [List.nil_append] at heq
    simp at heq
  | cons e1 d1 =>
    rw [List.cons_append] at heq
    injection heq with h1 heq
    cases d1 with
    | nil =>
      rw [List.nil_append] at heq
      simp at heq
    | cons e2 d2 =>
      rw [List.cons_append] at heq
      injection heq with h2 heq
      cases d2 with
      | nil =>
        rw [List.nil_append] at heq
        simp at heq
      | cons e3 d3 =>
        rw [List.cons_append] at heq
        injection heq with h3 heq
        cases d3 with
        | nil =>
          rw [List.nil_append] at heq
          injection heq with h4 heq
          cases z with
          | nil =>
            rw [List.nil_append, hL] at heq
            simp at heq
          | cons z0 z1 =>
            rw [List.cons_append] at heq
            injection heq with h5 heq
            cases z1 with
            | nil =>
              rw [List.nil_append, hL] at heq
              simp at heq
            | cons z2 z3 =>
              rw [List.cons_append] at heq
              injection heq with h6 heq
              have : isHexDash z2 = true := hz z2 (by simp)
              rw [h6] at this
              exact absurd this (by decide)
        | cons e4 d4 =>
          rw [List.cons_append] at heq
          injection heq with h4 heq
          have : notSlash e4 = true := hd e4 (by simp)
          rw [h4] at this
          exact absurd this (by decide)

theorem mid_no_interior {x y z : List Char} (hg : GoodParts x y z) (s w : List Char)
    (hs : s ≠ []) : matchWord x y z ≠ s ++ ('(' :: '.' :: '.' :: '/' :: 'b' :: 'l' :: w) := by
  obtain ⟨hx, hy, hz, hxs, hys, hzs⟩ := hg
  have hW : matchWord x y z = LIT1 ++ (x ++ (LIT2 ++ (y ++ ('/' :: (z ++ LIT4))))) := by
    simp [matchWord, List.append_assoc]
  intro heq
  rw [hW] at heq
  rcases List.append_eq_append_iff.mp heq with ⟨a, _, hq⟩ | ⟨c, hl, hu⟩
  · -- the boundary falls at or after x
    rcases List.append_eq_append_iff.mp hq with ⟨b, _, hq2⟩ | ⟨d, hxd, hu⟩
    · rcases List.append_eq_append_iff.mp hq2 with ⟨e, _, hq3⟩ | ⟨e, hle, hu⟩
      · rcases List.append_eq_append_iff.mp hq3 with ⟨g, _, hq4⟩ | ⟨d, hyd, hu⟩
        · -- the boundary falls inside the slash-z-LIT4 tail
          cases g with
          | nil =>
            rw [List.nil_append] at hq4
            simp at hq4
          | cons g0 g1 =>
            rw [List.cons_append] at hq4
            injection hq4 with _ hq5
            rcases List.append_eq_append_iff.mp hq5 with ⟨p, _, hLp⟩ | ⟨q, hzq, hu⟩
            · have hmem : ('(' : Char) ∈ LIT4 := by
                rw [hLp]
                exact List.mem_append_right p (List.mem_cons_self '(' _)
              exact absurd hmem (by decide)
            · cases q with
              | nil =>
                rw [List.nil_append] at hu
                have h4 : LIT4 = '.' :: "png)".toList := rfl
                rw [h4] at hu
                simp at hu
              | cons qq q2 =>
                have hqq : qq = '(' := by
                  rw [List.cons_append] at hu
                  injection hu with h1 _
                  exact h1.symm
                have hin : isHexDash qq = true :=
                  hzs qq (hzq ▸ List.mem_append_right g1 (List.mem_cons_self qq q2))
                rw [hqq] at hin
                exact absurd hin (by decide)
        · exact midY d z w (fun c hc => hys c (hyd ▸ List.mem_append_right e hc)) hzs hu.symm
      · cases e with
        | nil =>
          rw [List.nil_append] at hu
          exact midY y z w hys hzs hu.symm
        | cons ee e2 =>
          have hee : ee = '(' := by
            rw [List.cons_append] at hu
            injection hu with h1 _
            exact h1.symm
          have hmem : ee ∈ LIT2 := by
            rw [hle]
            exact List.mem_append_right b (List.mem_cons_self ee e2)
          rw [hee] at hmem
          exact absurd hmem (by decide)
    · exact midX d (y ++ ('/' :: (z ++ LIT4))) w
        (fun c hc => hxs c (hxd ▸ List.mem_append_right a hc)) hu.symm
  · -- the boundary falls inside LIT1: its interior has no parenthesis
    cases c with
    | nil =>
      rw [List.append_nil] at hl
      rw [List.nil_append] at hu
      exact midX x (y ++ ('/' :: (z ++ LIT4))) w hxs hu.symm
    | cons cc c2 =>
      have hcc : cc = '(' := by
        rw [List.cons_append] at hu
        injection hu with h1 _
        exact h1.symm
      cases s with
      | nil => exact absurd rfl hs
      | cons s0 s1 =>
        have h1 : LIT1 = '(' :: "https://stackoverflowteams.com/c/".toList := rfl
        rw [h1, List.cons_append] at hl
        injection hl with _ hl2
        have hmem : cc ∈ "https://stackoverflowteams.com/c/".toList := by
          rw [hl2]
          exact List.mem_append_right s1 (List.mem_cons_self cc c2)
        rw [hcc] at hmem
        exact absurd hmem (by decide)

/-- Any way of cutting the six-character replacement-text head off a
concatenation. -/
theorem destruct_u {u r T : List Char}
    (heq : u ++ r = '(' :: '.' :: '.' :: '/' :: 'b' :: 'l' :: T) :
    u = [] ∨ u = ['('] ∨ u = ['(', '.'] ∨ u = ['(', '.', '.'] ∨ u = ['(', '.', '.', '/'] ∨
      u = ['(', '.', '.', '/', 'b'] ∨ ∃ w, u = '(' :: '.' :: '.' :: '/' :: 'b' :: 'l' :: w := by
  cases u with
  | nil => exact Or.inl rfl
  | cons c1 u1 =>
    rw [List.cons_append] at heq
    injection heq with h1 heq
    subst h1
    cases u1 with
    | nil => exact Or.inr (Or.inl rfl)
    | cons c2 u2 =>
      rw [List.cons_append] at heq
      injection heq with h2 heq
      subst h2
      cases u2 with
      | nil => exact Or.inr (Or.inr (Or.inl rfl))
      | cons c3 u3 =>
        rw [List.cons_append] at heq
        injection heq with h3 heq
        subst h3
        cases u3 with
        | nil => exact Or.inr (Or.inr (Or.inr (Or.inl rfl)))
        | cons c4 u4 =>
          rw [List.cons_append] at heq
          injection heq with h4 heq
          subst h4
          cases u4 with
          | nil => exact Or.inr (Or.inr (Or.inr (Or.inr (Or.inl rfl))))
          | cons c5 u5 =>
            rw [List.cons_append] at heq
            injection heq with h5 heq
            subst h5
            cases u5 with
            | nil => exact Or.inr (Or.inr (Or.inr (Or.inr (Or.inr (Or.inl rfl)))))
            | cons c6 u6 =>
              rw [List.cons_append] at heq
              injection heq with h6 heq
              subst h6
              exact Or.inr (Or.inr (Or.inr (Or.inr (Or.inr (Or.inr ⟨u6, rfl⟩)))))

/-! ## The rewritten text contains no further occurrence of the pattern -/

/-- A character list is clean when the pattern matches at none of its
positions (equivalently: at the head of none of its suffixes). -/
def CleanList (l : List Char) : Prop := ∀ t, t <:+ l → matchAt t = none

/-- Replacing one match cannot enable a match that starts in older text and
runs into the replacement: if no nonempty suffix of `p` starts a match when
followed by `l`, none starts a match when followed by the rewrite of `l`. -/
theorem matchAt_none_rewriteGo : ∀ (n : Nat) (l p : List Char), l.length ≤ n →
    (∀ s, s <:+ p → s ≠ [] → matchAt (s ++ l) = none) →
    ∀ s, s <:+ p → s ≠ [] → matchAt (s ++ rewriteGo l) = none := by
  intro n
  induction n with
  | zero =>
    intro l p hn hp s hs hne
    have hl : l = [] := List.eq_nil_of_length_eq_zero (Nat.le_zero.mp hn)
    subst hl
    simpa [rewriteGo_nil] using hp s hs hne
  | succ m ih =>
    intro l p hn hp s hs hne
    cases l with
    | nil => simpa [rewriteGo_nil] using hp s hs hne
    | cons d ds =>
      cases hm : matchAt (d :: ds) with
      | none =>
        rw [rewriteGo_cons_none hm]
        have hp2 : ∀ s2, s2 <:+ p ++ [d] → s2 ≠ [] → matchAt (s2 ++ ds) = none := by
          intro s2 hs2 hs2ne
          rcases suffix_append_singleton hs2 with he | ⟨s3, hs3, he3⟩
          · exact absurd he hs2ne
          · by_cases hs3e : s3 = []
            · rw [he3, hs3e]
              simpa using hm
            · rw [he3, List.append_assoc]
              simpa using hp s3 hs3 hs3e
        have hlen : ds.length ≤ m := by
          simp only [List.length_cons] at hn
          omega
        have hres := ih ds (p ++ [d]) hlen hp2 (s ++ [d]) (suffix_append_same d hs) (by simp)
        rw [List.append_assoc] at hres
        simpa using hres
      | some pr =>
        obtain ⟨z0, rest0⟩ := pr
        rw [rewriteGo_cons_some hm]
        obtain ⟨x0, y0, hg0, _⟩ := matchAt_sound hm
        have hz0 : ∀ c ∈ z0, isHexDash c = true := hg0.2.2.2.2.2
        by_contra hcon
        cases hq : matchAt (s ++ (replacementFor z0 ++ rewriteGo rest0)) with
        | none => exact absurd hq hcon
        | some qr =>
          obtain ⟨q, r⟩ := qr
          obtain ⟨xq, yq, hgq, heq2⟩ := matchAt_sound hq
          rcases List.append_eq_append_iff.mp heq2 with ⟨u, hWu, hur⟩ | ⟨c2, hsc, hrc⟩
          · have hshape : replacementFor z0 ++ rewriteGo rest0
                = '(' :: '.' :: '.' :: '/' :: 'b' :: 'l' ::
                    (("ob/main/images/".toList ++ z0.filter (fun c => c ≠ '-')
                      ++ ".png?raw=true)".toList) ++ rewriteGo rest0) := rfl
            rw [hshape] at hur
            rcases destruct_u hur.symm with h | h | h | h | h | h | ⟨w, hw⟩
            · rw [h, List.append_nil] at hWu
              have h1 := hp s hs hne
              rw [← hWu, matchAt_complete hgq (d :: ds)] at h1
              exact absurd h1 (by simp)
            · rw [h] at hWu
              have hlast := matchWord_getLast xq yq q
              rw [hWu, List.getLast?_append_of_ne_nil _ (by simp)] at hlast
              simp at hlast
            · rw [h] at hWu
              have hlast := matchWord_getLast xq yq q
              rw [hWu, List.getLast?_append_of_ne_nil _ (by simp)] at hlast
              simp at hlast
            · rw [h] at hWu
              have hlast := matchWord_getLast xq yq q
              rw [hWu, List.getLast?_append_of_ne_nil _ (by simp)] at hlast
              simp at hlast
            · rw [h] at hWu
              have hlast := matchWord_getLast xq yq q
              rw [hWu, List.getLast?_append_of_ne_nil _ (by simp)] at hlast
              simp at hlast
            · rw [h] at hWu
              have hlast := matchWord_getLast xq yq q
              rw [hWu, List.getLast?_append_of_ne_nil _ (by simp)] at hlast
              simp at hlast
            · rw [hw] at hWu
              exact mid_no_interior hgq s w hne hWu
          · have h1 := hp s hs hne
            rw [hsc, List.append_assoc, matchAt_complete hgq (c2 ++ (d :: ds))] at h1
            exact absurd h1 (by simp)

/-- Main cleanliness invariant: the output of the re.sub scan never contains
an occurrence of the pattern. -/
theorem cleanList_rewriteGo : ∀ (n : Nat) (l : List Char), l.length ≤ n →
    CleanList (rewriteGo l) := by
  intro n
  induction n with
  | zero =>
    intro l hn t ht
    have hl : l = [] := List.eq_nil_of_length_eq_zero (Nat.le_zero.mp hn)
    subst hl
    rw [rewriteGo_nil] at ht
    rw [List.eq_nil_of_suffix_nil ht]
    exact matchAt_nil
  | succ m ih =>
    intro l hn t ht
    cases l with
    | nil =>
      rw [rewriteGo_nil] at ht
      rw [List.eq_nil_of_suffix_nil ht]
      exact matchAt_nil
    | cons d ds =>
      cases hm : matchAt (d :: ds) with
      | some pr =>
        obtain ⟨z0, rest0⟩ := pr
        rw [rewriteGo_cons_some hm] at ht
        obtain ⟨x0, y0, hg0, _⟩ := matchAt_sound hm
        have hz0 : ∀ c ∈ z0, isHexDash c = true := hg0.2.2.2.2.2
        have hrest_len : rest0.length ≤ m := by
          have := matchAt_rest_length hm
          simp only [List.length_cons] at this hn
          omega
        rcases suffix_append_split ht with h1 | ⟨a, ha, hane, hae⟩
        · exact ih rest0 hrest_len t h1
        · rw [hae]
          exact matchAt_none_of_suffix_repl hz0 ha hane (rewriteGo rest0)
      | none =>
        rw [rewriteGo_cons_none hm] at ht
        have hlen : ds.length ≤ m := by
          simp only [List.length_cons] at hn
          omega
        rcases List.suffix_cons_iff.mp ht with he | ht2
        · rw [he]
          have hp : ∀ s, s <:+ [d] → s ≠ [] → matchAt (s ++ ds) = none := by
            intro s hsd hsne
            rcases List.suffix_cons_iff.mp hsd with he2 | ht3
            · rw [he2]
              simpa using hm
            · exact absurd (List.eq_nil_of_suffix_nil ht3) hsne
          have hres := matchAt_none_rewriteGo m ds [d] hlen hp [d] List.suffix_rfl (by simp)
          simpa using hres
        · exact ih ds hlen t ht2

/-- On clean input the re.sub scan is the identity. -/
theorem rewriteGo_of_clean : ∀ l : List Char, CleanList l → rewriteGo l = l := by
  intro l
  induction l with
  | nil => intro _; rfl
  | cons d ds ih =>
    intro hc
    have hm : matchAt (d :: ds) = none := hc (d :: ds) List.suffix_rfl
    rw [rewriteGo_cons_none hm, ih (fun t ht => hc t (ht.trans (List.suffix_cons d ds)))]

theorem rewriteGo_idem (l : List Char) : rewriteGo (rewriteGo l) = rewriteGo l :=
  rewriteGo_of_clean (rewriteGo l) (cleanList_rewriteGo l.length l le_rfl)

/-- Suffix-closure helper used to check cleanliness of a concrete string by
evaluating the scanner at each of its positions. -/
theorem cleanList_of_drops {l : List Char}
    (h : ∀ k, k ≤ l.length → matchAt (l.drop k) = none) : CleanList l := by
  intro t ht
  obtain ⟨w, hw⟩ := ht
  have h1 : t = l.drop w.length := by
    rw [← hw, List.drop_append_of_le_length le_rfl]
    simp
  rw [h1]
  exact h w.length (by rw [← hw]; simp)

/-! ## Trace accounting helpers for the retry loop -/

theorem countP_call_waitEvs (rs : TransportState) (now : Int) :
    (waitEvs rs now).countP
      (fun e => match e with | ExecEvent.call => true | _ => false) = 0 := by
  rw [waitEvs]
  cases wait_if_rate_limited rs now <;> simp

theorem waitEvs_of_none {rs : TransportState} {now : Int}
    (h : wait_if_rate_limited rs now = none) : waitEvs rs now = [] := by
  rw [waitEvs, h]

theorem backoffSleeps_waitEvs (rs : TransportState) (now : Int) :
    backoffSleeps (waitEvs rs now) = [] := by
  rw [waitEvs]
  cases wait_if_rate_limited rs now <;> simp [backoffSleeps]

/-! ## Concrete inputs used in witnesses and counterexamples -/

/-- The initial transport rate state (no headers seen yet). -/
def noHeaders : TransportState := { rate_limit_remaining := none, rate_limit_reset := none }

/-- A remote error message carrying the throttle signature. -/
def throttleMsg : String := "Discussion was submitted too quickly"

/-- A remote that rejects every attempt with the throttle signature. -/
def allThrottle : Nat → CallOutcome := fun _ => CallOutcome.failure throttleMsg

/-- A remote that throttles the first three attempts and then succeeds. -/
def threeThrottleThenOk : Nat → CallOutcome := fun i =>
  if i < 3 then CallOutcome.failure throttleMsg else CallOutcome.success 9

/-- A constant clock. -/
def zeroClock : Nat → Int := fun _ => 0

/-- The question post of the end-to-end scenario. -/
def question1 : Post :=
  { id := 1, postType := "question", bodyMarkdown := "B", ownerUserId := 7,
    acceptedAnswerId := some 2, title := some "T", parentId := none }

/-- The answer post of the end-to-end scenario. -/
def answer2 : Post :=
  { id := 2, postType := "answer", bodyMarkdown := "A", ownerUserId := 0,
    acceptedAnswerId := none, title := none, parentId := some 1 }

/-- The owner of the scenario question. -/
def userSeven : UserProfile := { id := 7, displayName := "Alice" }

/-- The driver environment with the flag constants exactly as shipped in the
source (`process_questions_and_answers = False`, `process_articles = True`). -/
def envShipped : DriverEnv :=
  { users := [userSeven], repoId := 11, qaCategoryId := 21, articlesCategoryId := 22,
    pqa := process_questions_and_answers, part := process_articles,
    newDiscussionId := fun n => 100 + n }

/-- The same environment with question-and-answer processing enabled. -/
def envEnabled : DriverEnv := { envShipped with pqa := true }

/-! ## The claims -/

/-- Claim C1, counterexample.  The claim states that when the throttle
signature occurs on all 4 attempts, `execute_query` fails with the terminal
`TransportQueryError("Failed after maximum retries due to rate limiting")`
rather than any other error.  On the code, the fourth throttle failure takes
the `raise` at line 81 (whose own comment says re-raise when out of retries),
so the original throttle exception is re-raised and the line 84
`TransportQueryError` is unreachable: at this concrete input the result is
the re-raised throttle error, not `exhaustedRetries`. -/
theorem claim_C1_counterexample :
    (execute_query noHeaders zeroClock allThrottle).2
        = Except.error (QueryError.raised throttleMsg) ∧
      (execute_query noHeaders zeroClock allThrottle).2
        ≠ Except.error QueryError.exhaustedRetries ∧
      numCalls (execute_query noHeaders zeroClock allThrottle).1 = 4 := by
  refine ⟨by decide, by decide, by decide⟩

/-- Claim C1, amended.  If the throttle-signature error occurs on all 4
attempts, `execute_query` performs exactly 4 call attempts and fails by
re-raising the fourth throttle error; the terminal
`TransportQueryError("Failed after maximum retries due to rate limiting")`
line is dead code and is never reached. -/
theorem claim_C1 (rs : TransportState) (nows : Nat → Int) (f : Nat → CallOutcome)
    (m : Nat → String)
    (hf : ∀ i, i < 4 → f i = CallOutcome.failure (m i))
    (ht : ∀ i, i < 4 → isThrottle (m i) = true) :
    (execute_query rs nows f).2 = Except.error (QueryError.raised (m 3)) ∧
      numCalls (execute_query rs nows f).1 = 4 := by
  have h0 := hf 0 (by norm_num)
  have h1 := hf 1 (by norm_num)
  have h2 := hf 2 (by norm_num)
  have h3 := hf 3 (by norm_num)
  have t0 := ht 0 (by norm_num)
  have t1 := ht 1 (by norm_num)
  have t2 := ht 2 (by norm_num)
  have t3 := ht 3 (by norm_num)
  have key : execute_query rs nows f
      = (waitEvs rs (nows 0) ++ ExecEvent.call :: ExecEvent.backoff 5 ::
          (waitEvs rs (nows 1) ++ ExecEvent.call :: ExecEvent.backoff 25 ::
            (waitEvs rs (nows 2) ++ ExecEvent.call :: ExecEvent.backoff 125 ::
              (waitEvs rs (nows 3) ++ [ExecEvent.call]))),
         Except.error (QueryError.raised (m 3))) := by
    simp only [execute_query, executeQueryGo, h0, h1, h2, h3, t0, t1, t2, t3, max_retries]
    norm_num
  rw [key]
  refine ⟨rfl, ?_⟩
  simp only [numCalls, List.countP_append, List.countP_cons, countP_call_waitEvs]
  norm_num

/-- Claim C1, witness: the amended theorem applied to a concrete
always-throttling remote. -/
theorem claim_C1_witness :
    (execute_query noHeaders zeroClock allThrottle).2
        = Except.error (QueryError.raised throttleMsg) ∧
      numCalls (execute_query noHeaders zeroClock allThrottle).1 = 4 :=
  claim_C1 noHeaders zeroClock allThrottle (fun _ => throttleMsg)
    (fun _ _ => rfl) (fun _ _ => show isThrottle throttleMsg = true by decide)

/-- Claim C2 states that an answer post whose parentId has no entry in the
correlation map produces a logged diagnostic, no comment-creation call, and
does not halt the run.  The code prints the diagnostic but is missing the
skip: it falls through and subscripts the `None` lookup result
(`parent_discussion['createDiscussion']`), raising a TypeError that
propagates to the handler wrapping `main` (which exits with status 1), so
the run does halt — contradicting the claim, the spec error-handling policy
for DataIntegrityWarning, and the intent evidenced by the printed
diagnostic itself.  Moreover with the shipped
`process_questions_and_answers = False` the answer branch never runs, so not
even the diagnostic is produced.  This theorem evaluates both facts at the
failing input. -/
theorem claim_C2 :
    process_posts envEnabled initState [answer2]
        = ([DriverEvent.log "Error: Answer 2 has no parent discussion"],
           Except.error (PyError.typeError "TypeError: NoneType object is not subscriptable")) ∧
      process_posts envShipped initState [answer2] = ([], Except.ok initState) :=
  ⟨by decide, by decide⟩

/-- Claim C3, counterexample.  The claim states that on the scenario input
(one question with an accepted answer, then that answer) the driver creates
exactly one discussion and then one comment.  With the flag constants as
shipped in the source (`process_questions_and_answers = False`), both the
question branch and the answer branch are disabled, so the driver performs
no remote call at all for this input. -/
theorem claim_C3_counterexample :
    process_posts envShipped initState [question1, answer2] = ([], Except.ok initState) ∧
      remoteCalls (process_posts envShipped initState [question1, answer2]).1 = [] :=
  ⟨by decide, by decide⟩

/-- Claim C3, amended.  With question-and-answer processing enabled (the
shipped source sets `process_questions_and_answers = False`, which skips
these posts entirely), the driver behaves exactly as claimed: it creates one
discussion for post 1 whose body is `"Written by <displayName(7)>\n"`
followed by the rewritten body of `"B"`, records it in the correlation map,
and afterwards creates exactly one comment on that discussion with body
`"A"` and the mark-as-answer flag true (since acceptedAnswerId = 2 matches
the answer id). -/
theorem claim_C3 (dn : String) (repoId qaCat artCat : Nat) (newId : Nat → Nat) :
    process_posts
        { users := [{ id := 7, displayName := dn }], repoId := repoId, qaCategoryId := qaCat,
          articlesCategoryId := artCat, pqa := true, part := process_articles,
          newDiscussionId := newId }
        initState [question1, answer2]
      = ([DriverEvent.log "\nProcessing question: T",
          DriverEvent.createDiscussion repoId qaCat (some "T")
            ("Written by " ++ dn ++ "\n" ++ rewrite_image_urls "B"),
          DriverEvent.createComment (newId 0) "A" true],
         Except.ok { tokens := [(1, newId 0)], answer_ids := [(1, 2)], nCreated := 1 }) := rfl

/-- Claim C4, counterexample.  The claim states the transport issues exactly
one outbound remote call per send and that unparsable metadata leaves the
rate state at the unknown sentinel rather than raising.  On the code, a
successful GraphQL call is followed by a second `session.post` of the same
document just to read headers (two outbound calls), and an unparsable header
value makes `int()` raise a ValueError that is re-raised: at this concrete
input the call count is 2 (not 1) and the result is the raised parse error
with the state unchanged. -/
theorem claim_C4_counterexample :
    transport_execute noHeaders (Except.ok 0)
        { remaining := some "abc", reset := some "5" }
      = (2, noHeaders,
         Except.error "ValueError: invalid literal for int() with base 10: abc") := by
  decide

/-- Claim C4, amended.  Each `RateLimitedTransport.execute` invocation
issues one outbound call when the wrapped GraphQL call fails (state
untouched, error re-raised), and exactly two outbound calls when it
succeeds (the GraphQL request plus one additional POST of the same document
to read the rate limit headers).  Absent headers store the `-1` sentinel in
both fields; headers that parse update both fields to the parsed values;
an unparsable `x-ratelimit-remaining` raises, propagating the ValueError
with the state untouched. -/
theorem claim_C4 (st : TransportState) (hdrs : TransportHeaders) (v : Nat) :
    (∀ e, transport_execute st (Except.error e) hdrs = (1, st, Except.error e)) ∧
      (transport_execute st (Except.ok v) hdrs).1 = 2 ∧
      (hdrs.remaining = none → hdrs.reset = none →
        transport_execute st (Except.ok v) hdrs
          = (2, { rate_limit_remaining := some (-1), rate_limit_reset := some (-1) },
             Except.ok v)) ∧
      (∀ a b, pyIntHeader hdrs.remaining = Except.ok a → pyIntHeader hdrs.reset = Except.ok b →
        transport_execute st (Except.ok v) hdrs
          = (2, { rate_limit_remaining := some a, rate_limit_reset := some b }, Except.ok v)) ∧
      (∀ err, pyIntHeader hdrs.remaining = Except.error err →
        transport_execute st (Except.ok v) hdrs = (2, st, Except.error err)) := by
  refine ⟨fun e => rfl, ?_, ?_, ?_, ?_⟩
  · cases h1 : pyIntHeader hdrs.remaining with
    | error e => simp [transport_execute, h1]
    | ok a =>
      cases h2 : pyIntHeader hdrs.reset with
      | error e => simp [transport_execute, h1, h2]
      | ok b => simp [transport_execute, h1, h2]
  · intro h1 h2
    simp [transport_execute, h1, h2, pyIntHeader]
  · intro a b h1 h2
    simp [transport_execute, h1, h2]
  · intro err h1
    simp [transport_execute, h1]

/-- Claim C4, witness: the amended theorem applied to parsable concrete
headers. -/
theorem claim_C4_witness :
    transport_execute noHeaders (Except.ok 5) { remaining := some "7", reset := some "9" }
      = (2, { rate_limit_remaining := some 7, rate_limit_reset := some 9 }, Except.ok 5) :=
  (claim_C4 noHeaders { remaining := some "7", reset := some "9" } 5).2.2.2.1 7 9 rfl rfl

/-- Claim C5.  The wait gate never sleeps when remaining calls are positive
or when either rate field is unknown (`None` from initialization, or the
`-1` sentinel for an absent header); when remaining equals 0 with a known
reset time it sleeps exactly `max (reset - now) 1` seconds. -/
theorem claim_C5 (st : TransportState) (now : Int) :
    ((∃ r, st.rate_limit_remaining = some r ∧ 0 < r) ∨ st.rate_limit_remaining = none ∨
        st.rate_limit_reset = none ∨ st.rate_limit_remaining = some (-1) ∨
        st.rate_limit_reset = some (-1) →
      wait_if_rate_limited st now = none) ∧
      (∀ rst, st.rate_limit_remaining = some 0 → st.rate_limit_reset = some rst → rst ≠ -1 →
        wait_if_rate_limited st now = some (max (rst - now) 1)) := by
  obtain ⟨rem, rst⟩ := st
  constructor
  · intro hcase
    simp only at hcase
    rcases hcase with ⟨r, hr, hpos⟩ | h | h | h | h
    · subst hr
      cases rst with
      | none => rfl
      | some b =>
        rw [wait_if_rate_limited]
        dsimp only
        split_ifs with hA hB
        · rfl
        · exfalso
          rw [hB] at hpos
          exact absurd hpos (by norm_num)
        · rfl
    · subst h; rfl
    · subst h
      cases rem with
      | none => rfl
      | some a => rfl
    · subst h
      cases rst with
      | none => rfl
      | some b =>
        rw [wait_if_rate_limited]
        dsimp only
        rw [if_pos (Or.inl rfl)]
    · subst h
      cases rem with
      | none => rfl
      | some a =>
        rw [wait_if_rate_limited]
        dsimp only
        rw [if_pos (Or.inr rfl)]
  · intro rv h1 h2 hne
    simp only at h1 h2
    subst h1
    subst h2
    rw [wait_if_rate_limited]
    dsimp only
    have hc : ¬((0 : Int) = -1 ∨ rv = -1) := by
      rintro (h | h)
      · exact absurd h (by norm_num)
      · exact hne h
    rw [if_neg hc, if_pos rfl]

/-- Claim C5, witness: the zero-remaining case at a concrete state and
clock. -/
theorem claim_C5_witness :
    wait_if_rate_limited
        { rate_limit_remaining := some 0, rate_limit_reset := some 100 } 90
      = some (max (100 - 90) 1) :=
  (claim_C5 { rate_limit_remaining := some 0, rate_limit_reset := some 100 } 90).2
    100 rfl rfl (by norm_num)

/-- Claim C6.  With throttle-signature failures on attempts 1-3 and success
on attempt 4 (and the wait gate not sleeping, as is the case for the
unknown initial rate state), `execute_query` returns the successful result,
having slept exactly 5, then 25, then 125 seconds between the attempts, in
that order, over exactly 4 call attempts. -/
theorem claim_C6 (rs : TransportState) (nows : Nat → Int) (f : Nat → CallOutcome)
    (v : Nat) (m0 m1 m2 : String)
    (h0 : f 0 = CallOutcome.failure m0) (h1 : f 1 = CallOutcome.failure m1)
    (h2 : f 2 = CallOutcome.failure m2) (h3 : f 3 = CallOutcome.success v)
    (t0 : isThrottle m0 = true) (t1 : isThrottle m1 = true) (t2 : isThrottle m2 = true)
    (hw : ∀ i, wait_if_rate_limited rs (nows i) = none) :
    execute_query rs nows f
        = ([ExecEvent.call, ExecEvent.backoff 5, ExecEvent.call, ExecEvent.backoff 25,
            ExecEvent.call, ExecEvent.backoff 125, ExecEvent.call], Except.ok v) ∧
      (execute_query rs nows f).2 = Except.ok v ∧
      allSleeps (execute_query rs nows f).1 = [5, 25, 125] ∧
      numCalls (execute_query rs nows f).1 = 4 := by
  have hwE : ∀ i, waitEvs rs (nows i) = [] := fun i => waitEvs_of_none (hw i)
  have key : execute_query rs nows f
      = ([ExecEvent.call, ExecEvent.backoff 5, ExecEvent.call, ExecEvent.backoff 25,
          ExecEvent.call, ExecEvent.backoff 125, ExecEvent.call], Except.ok v) := by
    simp only [execute_query, executeQueryGo, h0, h1, h2, h3, t0, t1, t2, hwE, max_retries]
    norm_num
  refine ⟨key, ?_, ?_, ?_⟩ <;> rw [key] <;> rfl

/-- Claim C6, witness: the theorem applied to a remote that throttles three
times then succeeds, starting from the unknown rate state. -/
theorem claim_C6_witness :
    execute_query noHeaders zeroClock threeThrottleThenOk
        = ([ExecEvent.call, ExecEvent.backoff 5, ExecEvent.call, ExecEvent.backoff 25,
            ExecEvent.call, ExecEvent.backoff 125, ExecEvent.call], Except.ok 9) ∧
      (execute_query noHeaders zeroClock threeThrottleThenOk).2 = Except.ok 9 ∧
      allSleeps (execute_query noHeaders zeroClock threeThrottleThenOk).1 = [5, 25, 125] ∧
      numCalls (execute_query noHeaders zeroClock threeThrottleThenOk).1 = 4 :=
  claim_C6 noHeaders zeroClock threeThrottleThenOk 9 throttleMsg throttleMsg throttleMsg
    rfl rfl rfl rfl (show isThrottle throttleMsg = true by decide)
    (show isThrottle throttleMsg = true by decide)
    (show isThrottle throttleMsg = true by decide) (fun _ => rfl)

/-- Claim C7.  An error without the throttle signature propagates after
exactly 1 call attempt: no backoff sleep ever occurs, and when the wait gate
does not sleep the entire trace is that single call. -/
theorem claim_C7 (rs : TransportState) (nows : Nat → Int) (f : Nat → CallOutcome)
    (m : String) (h0 : f 0 = CallOutcome.failure m) (ht : isThrottle m = false) :
    (execute_query rs nows f).2 = Except.error (QueryError.raised m) ∧
      numCalls (execute_query rs nows f).1 = 1 ∧
      backoffSleeps (execute_query rs nows f).1 = [] ∧
      (wait_if_rate_limited rs (nows 0) = none →
        (execute_query rs nows f).1 = [ExecEvent.call]) := by
  have key : execute_query rs nows f
      = (waitEvs rs (nows 0) ++ [ExecEvent.call], Except.error (QueryError.raised m)) := by
    simp only [execute_query, executeQueryGo, h0, ht]
    norm_num
  rw [key]
  refine ⟨rfl, ?_, ?_, ?_⟩
  · simp only [numCalls, List.countP_append, List.countP_cons, countP_call_waitEvs]
    norm_num
  · rw [backoffSleeps, List.filterMap_append]
    rw [show List.filterMap _ (waitEvs rs (nows 0)) = backoffSleeps (waitEvs rs (nows 0)) from rfl]
    rw [backoffSleeps_waitEvs]
    rfl
  · intro hwn
    rw [waitEvs_of_none hwn]
    rfl

/-- Claim C7, witness: a concrete authentication failure propagates with one
call and an empty sleep trace. -/
theorem claim_C7_witness :
    (execute_query noHeaders zeroClock (fun _ => CallOutcome.failure "auth failed")).2
        = Except.error (QueryError.raised "auth failed") ∧
      numCalls (execute_query noHeaders zeroClock
        (fun _ => CallOutcome.failure "auth failed")).1 = 1 ∧
      backoffSleeps (execute_query noHeaders zeroClock
        (fun _ => CallOutcome.failure "auth failed")).1 = [] ∧
      (wait_if_rate_limited noHeaders (zeroClock 0) = none →
        (execute_query noHeaders zeroClock
          (fun _ => CallOutcome.failure "auth failed")).1 = [ExecEvent.call]) :=
  claim_C7 noHeaders zeroClock (fun _ => CallOutcome.failure "auth failed") "auth failed"
    rfl (by decide)

/-- Claim C8.  With `is_answer = True`, `create_comment` issues exactly two
remote calls when comment creation succeeds and returns a comment id (the
creation, then the separate mark-as-answer call), and exactly one remote
call when the creation fails — the mark-as-answer call is never attempted
after a failed creation. -/
theorem claim_C8 (did : Nat) (body cid : String) (so : Except String Unit)
    (hne : cid ≠ "") :
    (create_comment did body true (Except.ok (some cid)) so).1
        = [CommentCall.addComment did body, CommentCall.markAnswer cid] ∧
      ∀ (e : String) (so2 : Except String Unit),
        (create_comment did body true (Except.error e) so2).1
          = [CommentCall.addComment did body] := by
  constructor
  · have hemp : cid.isEmpty = false := by
      rw [Bool.eq_false_iff]
      intro he
      exact hne ((String.isEmpty_iff cid).mp he)
    cases so <;> simp [create_comment, truthyId, hemp]
  · intro e so2
    rfl

/-- Claim C8, witness: the theorem at a concrete comment id, for both a
successful and a failed mark-as-answer second call. -/
theorem claim_C8_witness :
    (create_comment 3 "A" true (Except.ok (some "cid9")) (Except.ok ())).1
        = [CommentCall.addComment 3 "A", CommentCall.markAnswer "cid9"] ∧
      ∀ (e : String) (so2 : Except String Unit),
        (create_comment 3 "A" true (Except.error e) so2).1
          = [CommentCall.addComment 3 "A"] :=
  claim_C8 3 "A" "cid9" (Except.ok ()) (by decide)

/-- Claim C9.  The image URL rewrite maps the given stackoverflowteams URL
to the relative blob path with the hyphens stripped from the uuid. -/
theorem claim_C9 :
    rewrite_image_urls
        "(https://stackoverflowteams.com/c/org/images/s/8505b790-b95e-44e9-b937-884d990f53c4.png)"
      = "(../blob/main/images/8505b790b95e44e9b937884d990f53c4.png?raw=true)" := by
  decide

/-- Claim C10.  `rewrite_image_urls` is idempotent: the rewritten text never
contains an occurrence of the source-host pattern (the replacement's
relative path cannot complete a match, whatever surrounds it), so a second
pass is the identity; in particular a string with no occurrence of the
pattern at any position is returned unchanged. -/
theorem claim_C10 :
    (∀ s : String, rewrite_image_urls (rewrite_image_urls s) = rewrite_image_urls s) ∧
      ∀ s : String, CleanList s.data → rewrite_image_urls s = s := by
  constructor
  · intro s
    rw [rewrite_image_urls, rewrite_image_urls]
    exact congrArg String.mk (rewriteGo_idem s.data)
  · intro s hc
    rw [rewrite_image_urls, rewriteGo_of_clean s.data hc]

/-- Claim C10, witness: idempotence and the fixed-point property checked on
concrete strings. -/
theorem claim_C10_witness :
    rewrite_image_urls
        (rewrite_image_urls
          "(https://stackoverflowteams.com/c/org/images/s/8505b790-b95e-44e9-b937-884d990f53c4.png)")
      = rewrite_image_urls
          "(https://stackoverflowteams.com/c/org/images/s/8505b790-b95e-44e9-b937-884d990f53c4.png)"
      ∧ rewrite_image_urls "no images in this body" = "no images in this body" :=
  ⟨claim_C10.1 "(https://stackoverflowteams.com/c/org/images/s/8505b790-b95e-44e9-b937-884d990f53c4.png)",
   claim_C10.2 "no images in this body" (cleanList_of_drops (by decide))⟩
